import Mathlib

/-!
Verification of the chat-polisher plugin (src/main.py).

The development shallowly embeds the plugin as pure Lean functions:

* message chains are lists of segments (`Comp.Plain` text vs. any other
  component, modelled by `Seg.Image`);
* the external provider call is abstracted by an oracle
  `Nat → String → CallOutcome` giving, for each call index and merged
  run text, the outcome of the awaited call (timeout, cancellation,
  other exception, or a response object);
* Python exceptions that propagate (asyncio cancellation) are modelled
  by `Except.error ()`;
* `str.strip` is modelled by `strip` below, `"\n".join` by
  `String.intercalate "\n"`, Python dict state by association lists,
  and the monotonic clock by rational time stamps.
-/

namespace ChatPolisher

/-- A message-chain component: `Comp.Plain` text, or any non-text
component (image, mention, media, ...), modelled by `Image` with an
abstract payload. -/
inductive Seg
  | Plain (text : String)
  | Image (payload : Nat)
  deriving DecidableEq, Repr

/-- `isinstance(comp, Comp.Plain)`. -/
def Seg.isPlain : Seg → Bool
  | .Plain _ => true
  | .Image _ => false

deriving instance DecidableEq for Except

/-- Python `str.strip()`: drop leading and trailing whitespace.
Modelled directly on the character list so that concrete instances
evaluate. -/
def strip (s : String) : String :=
  ⟨List.reverse (List.dropWhile Char.isWhitespace
    (List.reverse (List.dropWhile Char.isWhitespace s.data)))⟩

/-- Outcome of the single awaited provider call inside `_polish_text`
(lines 151-160): the bounded `provider.text_chat` either times out, is
cancelled, raises some other exception, or yields a response object
`resp` (falsy `resp` modelled by `none`; `resp.completion_text` may
itself be `None`, the inner `Option`). -/
inductive CallOutcome
  | timeout
  | cancelled
  | otherError
  | response (resp : Option (Option String))
  deriving DecidableEq, Repr

/-- `_polish_text`, lines 151-174: maps the outcome of the awaited call
to `str | None`; a raised `asyncio.CancelledError` is re-raised
(`Except.error ()`).  `Except.ok none` is the failure result, and
`Except.ok (some t)` the success result carrying the stripped
completion text. -/
def polish_text (outcome : CallOutcome) : Except Unit (Option String) :=
  match outcome with
  | .timeout => .ok none
  | .cancelled => .error ()
  | .otherError => .ok none
  | .response rsp =>
    let polished : String :=
      match rsp with
      | none => ""
      | some ct => strip (ct.getD "")
    if polished = "" then .ok none else .ok (some polished)

/-- `flush_plain_buffer`, lines 184-206.  `buffer` holds the texts of
the buffered `Comp.Plain` components, `calls` counts the external calls
made so far (the oracle is consulted at the current index).  Returns
the cancellation (`Except.error`), the send-error abort (`.ok none`,
the source returning `False`), or the segments emitted for this run
together with the updated call counter. -/
def flush_plain_buffer (oracle : Nat → String → CallOutcome) (mode : String)
    (buffer : List String) (calls : Nat) :
    Except Unit (Option (List Seg × Nat)) :=
  if buffer = [] then .ok (some ([], calls))
  else
    let original_text := strip (String.intercalate "\n" buffer)
    if original_text = "" then .ok (some (buffer.map Seg.Plain, calls))
    else
      match polish_text (oracle calls original_text) with
      | .error e => .error e
      | .ok none =>
        if mode = "fallback_original" then
          .ok (some (buffer.map Seg.Plain, calls + 1))
        else .ok none
      | .ok (some polished_text) =>
        .ok (some ([Seg.Plain polished_text], calls + 1))

/-- The `for comp in chain` walk of `_polish_chain_segments`,
lines 208-221, with the trailing flush of line 219: consecutive
`Plain` texts accumulate in `buffer`; a non-`Plain` component first
flushes the buffer, then is appended unchanged.  Returns the emitted
segments (the source appends them to `new_chain` in this order) and
the final call counter, or the abort / cancellation of a flush. -/
def polishSegs (oracle : Nat → String → CallOutcome) (mode : String) :
    List Seg → List String → Nat → Except Unit (Option (List Seg × Nat))
  | [], buffer, calls => flush_plain_buffer oracle mode buffer calls
  | .Plain t :: rest, buffer, calls =>
    polishSegs oracle mode rest (buffer ++ [t]) calls
  | .Image p :: rest, buffer, calls =>
    match flush_plain_buffer oracle mode buffer calls with
    | .error e => .error e
    | .ok none => .ok none
    | .ok (some (emitted, calls')) =>
      match polishSegs oracle mode rest [] calls' with
      | .error e => .error e
      | .ok none => .ok none
      | .ok (some (tail, calls'')) =>
        .ok (some (emitted ++ .Image p :: tail, calls''))

/-- `_polish_chain_segments`, lines 176-225: on an aborted flush the
source returns `(False, chain)` with the original chain; when the chain
held no `Plain` component at all it returns `(True, chain)`; otherwise
`(True, new_chain)`. -/
def polish_chain_segments (oracle : Nat → String → CallOutcome) (mode : String)
    (chain : List Seg) : Except Unit (Bool × List Seg) :=
  match polishSegs oracle mode chain [] 0 with
  | .error e => .error e
  | .ok none => .ok (false, chain)
  | .ok (some (new_chain, _)) =>
    if chain.any Seg.isPlain then .ok (true, new_chain)
    else .ok (true, chain)

/-- The `for comp in chain` loop of `_replace_plain_text`,
lines 231-239, threading the `replaced` flag; returns the built list
and the final flag. -/
def replace_plain_go (polished_text : String) :
    List Seg → Bool → List Seg × Bool
  | [], replaced => ([], replaced)
  | .Plain _ :: rest, replaced =>
    let r := replace_plain_go polished_text rest true
    if replaced then r else (.Plain polished_text :: r.1, r.2)
  | .Image p :: rest, replaced =>
    let r := replace_plain_go polished_text rest replaced
    (.Image p :: r.1, r.2)

/-- `_replace_plain_text`, lines 227-244: replace the first `Plain`
with one `Plain` holding `polished_text`, drop every other `Plain`,
keep non-`Plain` components; prepend when no `Plain` existed. -/
def replace_plain_text (chain : List Seg) (polished_text : String) :
    List Seg :=
  let r := replace_plain_go polished_text chain false
  if r.2 then r.1 else .Plain polished_text :: r.1

/-! ## Marker store (`_llm_marks`, a Python dict keyed by event key) -/

/-- `marks.get(key)`: first binding for `key` in the association list
modelling the dict. -/
def dictGet : List (String × ℚ) → String → Option ℚ
  | [], _ => none
  | (k, v) :: rest, key => if k = key then some v else dictGet rest key

/-- `marks[key] = v`: replace the binding for `key`, or append a new
one. -/
def dictSet : List (String × ℚ) → String → ℚ → List (String × ℚ)
  | [], key, v => [(key, v)]
  | (k, w) :: rest, key, v =>
    if k = key then (key, v) :: rest else (k, w) :: dictSet rest key v

/-- `marks.pop(key, None)`: drop the binding for `key`. -/
def dictPop : List (String × ℚ) → String → List (String × ℚ)
  | [], _ => []
  | (k, w) :: rest, key =>
    if k = key then rest else (k, w) :: dictPop rest key

/-- `mark_ai_reply_flow`, lines 71-76 (marker part):
`self._llm_marks[key] = time.monotonic()`. -/
def mark_ai_reply_flow (marks : List (String × ℚ)) (key : String)
    (now : ℚ) : List (String × ℚ) :=
  dictSet marks key now

/-- `_has_valid_llm_mark`, lines 279-289: valid iff an entry exists and
`now - marked_at <= ttl`; an expired entry is popped as a side effect.
Returns the flag together with the updated mark table. -/
def has_valid_llm_mark (marks : List (String × ℚ)) (key : String)
    (now ttl : ℚ) : Bool × List (String × ℚ) :=
  match dictGet marks key with
  | none => (false, marks)
  | some marked_at =>
    if now - marked_at > ttl then (false, dictPop marks key)
    else (true, marks)

/-- `_cleanup_expired_marks`, lines 313-321: drop every entry with
`now - ts > ttl`. -/
def cleanup_expired_marks (marks : List (String × ℚ)) (now ttl : ℚ) :
    List (String × ℚ) :=
  marks.filter (fun kv => decide (now - kv.2 ≤ ttl))

/-! ## Configuration getters (lines 246-262 and 323-339)

`config.get(key, default)` is modelled by an `Option` argument (`none`
= key absent, so the Python default is used).  For the numeric getters
the stored value is abstracted by the behaviour of `float(raw_value)`:
either it converts (`RawNum.num q`) or it raises
`TypeError`/`ValueError` (`RawNum.notNum`). -/

/-- Result of applying `float` to a configured value. -/
inductive RawNum
  | num (q : ℚ)
  | notNum
  deriving DecidableEq, Repr

/-- `_get_timeout_seconds`, lines 246-252: default 12, floor 0.1. -/
def get_timeout_seconds (raw : Option RawNum) : ℚ :=
  let timeout : ℚ :=
    match raw with
    | none => 12
    | some (.num q) => q
    | some .notNum => 12
  max timeout (1/10)

/-- `_get_mark_retention_seconds`, lines 323-329: default 300,
floor 10. -/
def get_mark_retention_seconds (raw : Option RawNum) : ℚ :=
  let value : ℚ :=
    match raw with
    | none => 300
    | some (.num q) => q
    | some .notNum => 300
  max value 10

/-- `_get_mark_check_interval_seconds`, lines 331-339: default 60,
floor 1. -/
def get_mark_check_interval_seconds (raw : Option RawNum) : ℚ :=
  let value : ℚ :=
    match raw with
    | none => 60
    | some (.num q) => q
    | some .notNum => 60
  max value 1

/-- `_get_failure_mode`, lines 254-262.  The argument is
`str(config.get("failure_mode", default) or "")` before `.strip()`
(`none` = key absent, so the Chinese default string is used; a stored
falsy value arrives as `some ""`). -/
def get_failure_mode (raw : Option String) : String :=
  let mode := strip (raw.getD "发送原文（推荐）")
  if mode = "fallback_original" then "fallback_original"
  else if mode = "send_error" then "send_error"
  else if mode = "发送原文（推荐）" then "fallback_original"
  else if mode = "发送失败提示" then "send_error"
  else "fallback_original"

/-! ## Background cleanup loop (`_mark_cleanup_loop`, lines 301-311)

The loop body `await asyncio.sleep(interval); self._cleanup_expired_marks()`
is abstracted per iteration by a `PassOutcome`: the pass either runs
normally, raises an unexpected exception, or is cancelled.  The
`try/except` of the source wraps the whole `while True` loop, so a
raised exception leaves the loop: `except CancelledError` re-raises
(the task ends cancelled) and `except Exception` logs and returns (the
task ends normally, loop stopped). -/

/-- What one iteration (sleep + cleanup pass) of the loop body does. -/
inductive PassOutcome
  | ok
  | raiseError
  | raiseCancel
  deriving DecidableEq, Repr

/-- Status of the cleanup task after some number of iterations. -/
inductive LoopStatus
  | running
  | stoppedLogged
  | stoppedCancelled
  deriving DecidableEq, Repr

/-- `_mark_cleanup_loop` after `n` iterations with the given per-pass
outcomes: the `while True` loop keeps running on normal passes; an
unexpected exception escapes the loop and is caught by the outer
`except Exception` (logged, task returns); cancellation escapes and is
re-raised by `except CancelledError`.  A stopped task stays stopped. -/
def mark_cleanup_loop_steps (passes : Nat → PassOutcome) : Nat → LoopStatus
  | 0 => .running
  | n + 1 =>
    match mark_cleanup_loop_steps passes n with
    | .running =>
      match passes n with
      | .ok => .running
      | .raiseError => .stoppedLogged
      | .raiseCancel => .stoppedCancelled
    | s => s

/-! ## The pre-send hook (`force_polish_before_send`, lines 78-111) -/

/-- The plugin state touched by the hook: the task-local reentrancy
flag `_POLISHING_GUARD`, the marker dict `_llm_marks`, and whether the
cleanup task is alive (`_ensure_mark_cleanup_task` restarts it when
absent or done). -/
structure PluginState where
  guard : Bool
  marks : List (String × ℚ)
  taskRunning : Bool
  deriving DecidableEq, Repr

/-- Observable record of one hook invocation: the plugin state on
exit, the event result chain on exit (`none` = the event had no usable
result), whether `_polish_chain_segments` was invoked, the guard value
at that invocation, and whether a cancellation propagated out. -/
structure HookRun where
  state : PluginState
  chain : Option (List Seg)
  rewriterCalled : Bool
  guardDuringCall : Bool
  cancelled : Bool
  deriving DecidableEq, Repr

/-- `force_polish_before_send`, lines 78-111.  `key` is the event mark
key, `resultChain` the chain of `event.get_result()` (`none` when the
result or its `chain` attribute is falsy apart from the empty list,
which is checked separately), `providerResolves` whether
`_resolve_polish_provider` finds a provider, `mode` the resolved
failure mode, and `now`/`ttl` the clock and retention used by the mark
check.  The guard is set to `True` right before the rewriter call and
restored to its prior value on every exit of that call (the
`try/finally` of lines 99-103), including the cancellation path. -/
def force_polish_before_send (oracle : Nat → String → CallOutcome)
    (mode : String) (failure_message : String) (now ttl : ℚ)
    (st : PluginState) (key : String) (resultChain : Option (List Seg))
    (providerResolves : Bool) : HookRun :=
  if st.guard then
    { state := st, chain := resultChain, rewriterCalled := false
      guardDuringCall := false, cancelled := false }
  else
    let st1 : PluginState := { st with taskRunning := true }
    let checked := has_valid_llm_mark st1.marks key now ttl
    let st2 : PluginState := { st1 with marks := checked.2 }
    if !checked.1 then
      { state := st2, chain := resultChain, rewriterCalled := false
        guardDuringCall := false, cancelled := false }
    else
      match resultChain with
      | none =>
        { state := st2, chain := none, rewriterCalled := false
          guardDuringCall := false, cancelled := false }
      | some chain =>
        if chain = [] then
          { state := st2, chain := some chain, rewriterCalled := false
            guardDuringCall := false, cancelled := false }
        else if !providerResolves then
          { state := st2, chain := some chain, rewriterCalled := false
            guardDuringCall := false, cancelled := false }
        else
          let stSet : PluginState := { st2 with guard := true }
          let stDone : PluginState := { stSet with guard := st2.guard }
          match polish_chain_segments oracle mode chain with
          | .error _ =>
            { state := stDone, chain := some chain, rewriterCalled := true
              guardDuringCall := stSet.guard, cancelled := true }
          | .ok (success, new_chain) =>
            if !success then
              if mode = "send_error" then
                { state := stDone
                  chain := some (replace_plain_text chain failure_message)
                  rewriterCalled := true, guardDuringCall := stSet.guard
                  cancelled := false }
              else
                { state := stDone, chain := some chain
                  rewriterCalled := true, guardDuringCall := stSet.guard
                  cancelled := false }
            else if new_chain ≠ [] then
              { state := stDone, chain := some new_chain
                rewriterCalled := true, guardDuringCall := stSet.guard
                cancelled := false }
            else
              { state := stDone, chain := some chain
                rewriterCalled := true, guardDuringCall := stSet.guard
                cancelled := false }

/-! ## Claim-side description of the run structure

`runTexts` lists the newline-joined texts of the maximal contiguous
`Plain` runs of a chain (continuing a partial run `buf`), and
`specRewrite` states, following the words of the spec, what a fully
successful rewrite must produce: each run collapsed to one `Plain`
holding the response `res k t` of the `k`-th independent call on that
run's joined, trimmed text `t`, with non-`Plain` segments untouched.
Both follow the specification text; they are compared with the
source-derived `polish_chain_segments`. -/

/-- Newline-joined texts of the maximal contiguous `Plain` runs. -/
def runTexts : List Seg → List String → List String
  | [], buf => if buf = [] then [] else [String.intercalate "\n" buf]
  | .Plain t :: rest, buf => runTexts rest (buf ++ [t])
  | .Image _ :: rest, buf =>
    if buf = [] then runTexts rest []
    else String.intercalate "\n" buf :: runTexts rest []

/-- Spec-side output of a fully successful rewrite: the `k`-th run is
replaced by one `Plain` holding the `k`-th call response on the run's
joined trimmed text. -/
def specRewrite (res : Nat → String → String) :
    Nat → List String → List Seg → List Seg
  | k, buf, [] =>
    if buf = [] then []
    else [.Plain (res k (strip (String.intercalate "\n" buf)))]
  | k, buf, .Plain t :: rest => specRewrite res k (buf ++ [t]) rest
  | k, buf, .Image p :: rest =>
    if buf = [] then .Image p :: specRewrite res k [] rest
    else .Plain (res k (strip (String.intercalate "\n" buf))) ::
      .Image p :: specRewrite res (k + 1) [] rest

/-- The texts submitted to the external call, in call order: the
stripped joined text of each maximal `Plain` run whose stripped text
is non-empty (whitespace-only runs make no call), continuing a partial
run `buf`.  Claim-side description of the call sequence an execution
of the walk performs; the `j`-th call is made on `(callTexts chain []).get j`. -/
def callTexts : List Seg → List String → List String
  | [], buf =>
    if buf = [] then []
    else if strip (String.intercalate "\n" buf) = "" then []
    else [strip (String.intercalate "\n" buf)]
  | .Plain t :: rest, buf => callTexts rest (buf ++ [t])
  | .Image _ :: rest, buf =>
    if buf = [] then callTexts rest []
    else if strip (String.intercalate "\n" buf) = "" then callTexts rest []
    else strip (String.intercalate "\n" buf) :: callTexts rest []

/-! ## Helper lemmas -/

@[simp]
theorem Seg.isPlain_plain (t : String) : (Seg.Plain t).isPlain = true := rfl

@[simp]
theorem Seg.isPlain_image (p : Nat) : (Seg.Image p).isPlain = false := rfl

theorem dictGet_dictSet_self (marks : List (String × ℚ)) (key : String)
    (v : ℚ) : dictGet (dictSet marks key v) key = some v := by
  induction marks with
  | nil => simp [dictGet, dictSet]
  | cons kv rest ih =>
    obtain ⟨k, w⟩ := kv
    by_cases h : k = key <;> simp [dictGet, dictSet, h, ih]

theorem dictSet_dictSet_self (marks : List (String × ℚ)) (key : String)
    (v1 v2 : ℚ) :
    dictSet (dictSet marks key v1) key v2 = dictSet marks key v2 := by
  induction marks with
  | nil => simp [dictSet]
  | cons kv rest ih =>
    obtain ⟨k, w⟩ := kv
    by_cases h : k = key <;> simp [dictSet, h, ih]

/-- C5: the single rewrite call maps each outcome exactly as follows:
a timeout of the bounded external call is treated as failure (no
text), cancellation is re-raised and never converted into a failure
result, any other exception is treated as failure, and a completion
that is empty or whitespace-only after stripping is treated as
failure, so an empty string is never produced as a success. -/
theorem polish_text_outcome_mapping :
    polish_text .timeout = .ok none ∧
    polish_text .cancelled = .error () ∧
    polish_text .otherError = .ok none ∧
    polish_text (.response none) = .ok none ∧
    (∀ ct : Option String, strip (ct.getD "") = "" →
      polish_text (.response (some ct)) = .ok none) ∧
    (∀ (o : CallOutcome) (s : String),
      polish_text o = .ok (some s) → s ≠ "") := by
  refine ⟨rfl, rfl, rfl, rfl, ?_, ?_⟩
  · intro ct h
    simp [polish_text, h]
  · intro o s h
    cases o with
    | timeout => simp [polish_text] at h
    | cancelled => simp [polish_text] at h
    | otherError => simp [polish_text] at h
    | response rsp =>
      simp only [polish_text] at h
      split at h
      · simp at h
      · rename_i hne
        simp at h
        subst h
        exact hne

/-- C5 witness: concrete instances of the outcome mapping. -/
theorem polish_text_outcome_mapping_witness :
    polish_text (.response (some (some " \t "))) = .ok none ∧
    ("ok" : String) ≠ "" :=
  ⟨polish_text_outcome_mapping.2.2.2.2.1 (some " \t ") (by decide),
   polish_text_outcome_mapping.2.2.2.2.2
    (.response (some (some "ok"))) "ok" (by decide)⟩

/-- C9: every configuration getter is total over arbitrary configured
values: a missing or non-numeric `polish_timeout_seconds` /
`mark_retention_seconds` / `mark_check_interval_seconds` falls back to
its default (12, 300, 60), every result is clamped to its floor (0.1,
10, 1), and an unrecognized `failure_mode` string resolves to the
pass-through-original mode. -/
theorem config_getters_total :
    get_timeout_seconds none = 12 ∧
    get_timeout_seconds (some .notNum) = 12 ∧
    (∀ raw, 1/10 ≤ get_timeout_seconds raw) ∧
    get_mark_retention_seconds none = 300 ∧
    get_mark_retention_seconds (some .notNum) = 300 ∧
    (∀ raw, 10 ≤ get_mark_retention_seconds raw) ∧
    get_mark_check_interval_seconds none = 60 ∧
    get_mark_check_interval_seconds (some .notNum) = 60 ∧
    (∀ raw, 1 ≤ get_mark_check_interval_seconds raw) ∧
    (∀ raw, get_failure_mode raw = "fallback_original" ∨
      get_failure_mode raw = "send_error") ∧
    get_failure_mode none = "fallback_original" ∧
    (∀ s : String, strip s ≠ "fallback_original" → strip s ≠ "send_error" →
      strip s ≠ "发送失败提示" →
      get_failure_mode (some s) = "fallback_original") := by
  refine ⟨?_, ?_, ?_, ?_, ?_, ?_, ?_, ?_, ?_, ?_, ?_, ?_⟩
  · norm_num [get_timeout_seconds]
  · norm_num [get_timeout_seconds]
  · intro raw; exact le_max_right _ _
  · norm_num [get_mark_retention_seconds]
  · norm_num [get_mark_retention_seconds]
  · intro raw; exact le_max_right _ _
  · norm_num [get_mark_check_interval_seconds]
  · norm_num [get_mark_check_interval_seconds]
  · intro raw; exact le_max_right _ _
  · intro raw
    simp only [get_failure_mode]
    split
    · exact Or.inl rfl
    · split
      · exact Or.inr rfl
      · split
        · exact Or.inl rfl
        · split
          · exact Or.inr rfl
          · exact Or.inl rfl
  · decide
  · intro s h1 h2 h3
    by_cases h4 : strip s = "发送原文（推荐）" <;>
      simp [get_failure_mode, h1, h2, h3, h4]

/-- C9 witness: concrete instances of the getter behaviour. -/
theorem config_getters_total_witness :
    get_timeout_seconds none = 12 ∧
    (1/10 : ℚ) ≤ get_timeout_seconds (some (.num (1/100))) ∧
    get_failure_mode (some "whatever") = "fallback_original" :=
  ⟨config_getters_total.1,
   config_getters_total.2.2.1 (some (.num (1/100))),
   config_getters_total.2.2.2.2.2.2.2.2.2.2.2 "whatever"
    (by decide) (by decide) (by decide)⟩

/-- C7: the marker-validity check returns true iff an entry for the key
exists and `now - created_at <= TTL`; an expired entry is removed as a
side effect with result false; and marking is idempotent, re-marking an
existing key resetting its timestamp to the current time. -/
theorem marker_mark_and_validity :
    ∀ (marks : List (String × ℚ)) (key : String) (now ttl : ℚ),
      ((has_valid_llm_mark marks key now ttl).1 = true ↔
        ∃ ts, dictGet marks key = some ts ∧ now - ts ≤ ttl) ∧
      (∀ ts, dictGet marks key = some ts → now - ts > ttl →
        has_valid_llm_mark marks key now ttl = (false, dictPop marks key)) ∧
      (∀ t1, dictGet (mark_ai_reply_flow marks key t1) key = some t1) ∧
      (∀ t1 t2, mark_ai_reply_flow (mark_ai_reply_flow marks key t1) key t2 =
        mark_ai_reply_flow marks key t2) := by
  intro marks key now ttl
  refine ⟨?_, ?_, ?_, ?_⟩
  · cases h : dictGet marks key with
    | none => simp [has_valid_llm_mark, h]
    | some ts =>
      simp only [has_valid_llm_mark, h, Option.some.injEq]
      by_cases hlt : now - ts > ttl
      · rw [if_pos hlt]
        constructor
        · intro hfalse; simp at hfalse
        · rintro ⟨ts', rfl, hle⟩
          exact absurd hle (not_le.mpr hlt)
      · rw [if_neg hlt]
        constructor
        · intro _; exact ⟨ts, rfl, le_of_not_lt hlt⟩
        · intro _; rfl
  · intro ts hts hgt
    simp only [has_valid_llm_mark, hts]
    rw [if_pos hgt]
  · intro t1
    exact dictGet_dictSet_self marks key t1
  · intro t1 t2
    exact dictSet_dictSet_self marks key t1 t2

/-- C7 witness: concrete instances of mark validity, lazy expiry and
re-marking. -/
theorem marker_mark_and_validity_witness :
    ((has_valid_llm_mark [("k", 5)] "k" 8 3).1 = true ↔
      ∃ ts, dictGet [("k", 5)] "k" = some ts ∧ (8 : ℚ) - ts ≤ 3) ∧
    has_valid_llm_mark [("k", 5)] "k" 10 3 = (false, dictPop [("k", 5)] "k") ∧
    dictGet (mark_ai_reply_flow [("k", 5)] "k" 9) "k" = some 9 :=
  ⟨(marker_mark_and_validity [("k", 5)] "k" 8 3).1,
   (marker_mark_and_validity [("k", 5)] "k" 10 3).2.1 5 (by decide) (by norm_num),
   (marker_mark_and_validity [("k", 5)] "k" 9 0).2.2.1 9⟩

theorem mark_cleanup_loop_steps_absorb (passes : Nat → PassOutcome)
    (n : Nat) (h : mark_cleanup_loop_steps passes n ≠ .running) :
    mark_cleanup_loop_steps passes (n + 1) =
      mark_cleanup_loop_steps passes n := by
  cases hs : mark_cleanup_loop_steps passes n with
  | running => exact absurd hs h
  | stoppedLogged => simp [mark_cleanup_loop_steps, hs]
  | stoppedCancelled => simp [mark_cleanup_loop_steps, hs]

/-- C4 counterexample: the `try/except` of `_mark_cleanup_loop` wraps
the whole `while True` loop, so an unexpected error inside a single
cleanup pass escapes the loop; with an error in the first pass the
loop is no longer running two iterations later, contradicting the
claim that it continues looping. -/
theorem cleanup_loop_error_stops_loop :
    mark_cleanup_loop_steps (fun n => if n = 0 then .raiseError else .ok) 2
        = .stoppedLogged ∧
    mark_cleanup_loop_steps (fun n => if n = 0 then .raiseError else .ok) 2
        ≠ .running := by
  decide

/-- C4 amended: an unexpected error inside a single cleanup pass is
caught by the surrounding handler and logged, and cancellation is
re-raised, but the loop then terminates rather than continuing: a
failing pass moves the running loop to the logged-stop state, and any
stopped state is permanent. -/
theorem cleanup_loop_error_logged_then_stopped :
    (∀ (passes : Nat → PassOutcome) (n : Nat),
      mark_cleanup_loop_steps passes n = .running →
      passes n = .raiseError →
      mark_cleanup_loop_steps passes (n + 1) = .stoppedLogged) ∧
    (∀ (passes : Nat → PassOutcome) (n : Nat),
      mark_cleanup_loop_steps passes n = .running →
      passes n = .raiseCancel →
      mark_cleanup_loop_steps passes (n + 1) = .stoppedCancelled) ∧
    (∀ (passes : Nat → PassOutcome) (n m : Nat), n ≤ m →
      mark_cleanup_loop_steps passes n ≠ .running →
      mark_cleanup_loop_steps passes m =
        mark_cleanup_loop_steps passes n) := by
  refine ⟨?_, ?_, ?_⟩
  · intro passes n hrun herr
    simp [mark_cleanup_loop_steps, hrun, herr]
  · intro passes n hrun hcan
    simp [mark_cleanup_loop_steps, hrun, hcan]
  · intro passes n m hnm hstop
    induction m with
    | zero =>
      cases Nat.le_zero.mp hnm
      rfl
    | succ m ih =>
      rcases Nat.lt_or_ge n (m + 1) with hlt | hge
      · have hnm' : n ≤ m := Nat.lt_succ_iff.mp hlt
        have heq := ih hnm'
        rw [mark_cleanup_loop_steps_absorb passes m (heq ▸ hstop), heq]
      · cases Nat.le_antisymm hnm hge
        rfl

/-- C4 amended witness: an error in the first pass stops the loop in
the logged state, and it stays stopped later. -/
theorem cleanup_loop_error_logged_then_stopped_witness :
    mark_cleanup_loop_steps (fun _ => .raiseError) 1 = .stoppedLogged ∧
    mark_cleanup_loop_steps (fun _ => .raiseError) 3 =
      mark_cleanup_loop_steps (fun _ => .raiseError) 1 :=
  ⟨cleanup_loop_error_logged_then_stopped.1 (fun _ => .raiseError) 0 rfl rfl,
   cleanup_loop_error_logged_then_stopped.2.2 (fun _ => .raiseError) 1 3
    (by decide) (by decide)⟩

/-! ## Chain-walk helper lemmas -/

theorem flush_empty_buffer (oracle : Nat → String → CallOutcome)
    (mode : String) (calls : Nat) :
    flush_plain_buffer oracle mode [] calls = .ok (some ([], calls)) := by
  simp [flush_plain_buffer]

theorem flush_whitespace (oracle : Nat → String → CallOutcome)
    (mode : String) (buffer : List String) (calls : Nat)
    (h : strip (String.intercalate "\n" buffer) = "") :
    flush_plain_buffer oracle mode buffer calls =
      .ok (some (buffer.map Seg.Plain, calls)) := by
  by_cases hb : buffer = []
  · subst hb; simp [flush_plain_buffer]
  · simp [flush_plain_buffer, hb, h]

theorem flush_allFail_fallback (oracle : Nat → String → CallOutcome)
    (hfail : ∀ i t, polish_text (oracle i t) = .ok none)
    (buffer : List String) (calls : Nat) :
    ∃ calls', flush_plain_buffer oracle "fallback_original" buffer calls =
      .ok (some (buffer.map Seg.Plain, calls')) := by
  by_cases hb : buffer = []
  · subst hb; exact ⟨calls, by simp [flush_plain_buffer]⟩
  · by_cases hw : strip (String.intercalate "\n" buffer) = ""
    · exact ⟨calls, flush_whitespace oracle _ buffer calls hw⟩
    · exact ⟨calls + 1, by simp [flush_plain_buffer, hb, hw, hfail]⟩

theorem polishSegs_noPlain (oracle : Nat → String → CallOutcome)
    (mode : String) :
    ∀ (chain : List Seg), chain.all (fun s => !s.isPlain) = true →
      ∀ calls, polishSegs oracle mode chain [] calls =
        .ok (some (chain, calls)) := by
  intro chain
  induction chain with
  | nil => intro _ calls; simp [polishSegs, flush_plain_buffer]
  | cons s rest ih =>
    intro hall calls
    cases s with
    | Plain t => simp at hall
    | Image p =>
      have hrest : rest.all (fun s => !s.isPlain) = true := by
        simp only [List.all_cons, Bool.and_eq_true] at hall
        exact hall.2
      simp [polishSegs, flush_plain_buffer, ih hrest calls]

theorem any_isPlain_false_of_all {chain : List Seg}
    (hall : chain.all (fun s => !s.isPlain) = true) :
    chain.any Seg.isPlain = false := by
  cases hx : chain.any Seg.isPlain
  · rfl
  · exfalso
    rcases List.any_eq_true.mp hx with ⟨s, hmem, hp⟩
    have := List.all_eq_true.mp hall s hmem
    simp [hp] at this

theorem polish_chain_segments_noPlain (oracle : Nat → String → CallOutcome)
    (mode : String) (chain : List Seg)
    (hall : chain.all (fun s => !s.isPlain) = true) :
    polish_chain_segments oracle mode chain = .ok (true, chain) := by
  simp [polish_chain_segments, polishSegs_noPlain oracle mode chain hall 0,
    any_isPlain_false_of_all hall]

theorem polishSegs_allFail_fallback (oracle : Nat → String → CallOutcome)
    (hfail : ∀ i t, polish_text (oracle i t) = .ok none) :
    ∀ (chain : List Seg) (buffer : List String) (calls : Nat),
      ∃ calls', polishSegs oracle "fallback_original" chain buffer calls =
        .ok (some (buffer.map Seg.Plain ++ chain, calls')) := by
  intro chain
  induction chain with
  | nil =>
    intro buffer calls
    obtain ⟨c', hc⟩ := flush_allFail_fallback oracle hfail buffer calls
    exact ⟨c', by simp [polishSegs, hc]⟩
  | cons s rest ih =>
    intro buffer calls
    cases s with
    | Plain t =>
      obtain ⟨c', hc⟩ := ih (buffer ++ [t]) calls
      refine ⟨c', ?_⟩
      simp only [polishSegs, hc]
      simp
    | Image p =>
      obtain ⟨c1, h1⟩ := flush_allFail_fallback oracle hfail buffer calls
      obtain ⟨c2, h2⟩ := ih [] c1
      refine ⟨c2, ?_⟩
      simp only [polishSegs, h1, h2]
      simp

/-- C8: whenever there is no non-whitespace text to rewrite, the
rewriter makes no external call and leaves content unchanged: for a
chain with zero `Plain` segments the walk returns the original chain
with the call counter still at its initial value (no oracle
consultation) and `_polish_chain_segments` returns `(True, chain)`;
and a buffered run whose newline-joined, stripped text is empty is
passed through unchanged by the flush, again without advancing the
call counter. -/
theorem no_text_identity_no_call :
    (∀ (oracle : Nat → String → CallOutcome) (mode : String)
      (chain : List Seg), chain.all (fun s => !s.isPlain) = true →
      polishSegs oracle mode chain [] 0 = .ok (some (chain, 0)) ∧
      polish_chain_segments oracle mode chain = .ok (true, chain)) ∧
    (∀ (oracle : Nat → String → CallOutcome) (mode : String)
      (buffer : List String) (calls : Nat),
      strip (String.intercalate "\n" buffer) = "" →
      flush_plain_buffer oracle mode buffer calls =
        .ok (some (buffer.map Seg.Plain, calls))) :=
  ⟨fun oracle mode chain hall =>
    ⟨polishSegs_noPlain oracle mode chain hall 0,
     polish_chain_segments_noPlain oracle mode chain hall⟩,
   fun oracle mode buffer calls h =>
    flush_whitespace oracle mode buffer calls h⟩

/-- C8 witness: a chain of two non-text segments is returned unchanged
with zero calls, and a whitespace-only buffered run passes through. -/
theorem no_text_identity_no_call_witness :
    polish_chain_segments (fun _ _ => .timeout) "fallback_original"
        [Seg.Image 3, Seg.Image 4] = .ok (true, [Seg.Image 3, Seg.Image 4]) ∧
    flush_plain_buffer (fun _ _ => .timeout) "send_error" [" ", ""] 5 =
      .ok (some ([Seg.Plain " ", Seg.Plain ""], 5)) :=
  ⟨(no_text_identity_no_call.1 (fun _ _ => .timeout) "fallback_original"
      [Seg.Image 3, Seg.Image 4] (by decide)).2,
   no_text_identity_no_call.2 (fun _ _ => .timeout) "send_error"
      [" ", ""] 5 (by decide)⟩

/-- C3: when every rewrite call fails and the failure mode is
pass-through-original (`fallback_original`), the chain produced by the
rewrite is identical to the input chain, segment for segment. -/
theorem all_fail_pass_through_identity :
    ∀ (oracle : Nat → String → CallOutcome) (chain : List Seg),
      (∀ i t, polish_text (oracle i t) = .ok none) →
      polish_chain_segments oracle "fallback_original" chain =
        .ok (true, chain) := by
  intro oracle chain hfail
  obtain ⟨c', hc⟩ := polishSegs_allFail_fallback oracle hfail chain [] 0
  simp only [List.map_nil, List.nil_append] at hc
  simp only [polish_chain_segments, hc]
  split <;> rfl

/-- C3 witness: with a provider that always times out and
pass-through-original mode, a mixed chain comes back byte-for-byte
identical. -/
theorem all_fail_pass_through_identity_witness :
    polish_chain_segments (fun _ _ => .timeout) "fallback_original"
        [Seg.Plain "hi", Seg.Image 7, Seg.Plain "there"] =
      .ok (true, [Seg.Plain "hi", Seg.Image 7, Seg.Plain "there"]) :=
  all_fail_pass_through_identity (fun _ _ => .timeout)
    [Seg.Plain "hi", Seg.Image 7, Seg.Plain "there"] (fun _ _ => rfl)

/-- C10: observable frame condition of the rewriter: whenever
`_polish_chain_segments` reports failure it returns the input chain
itself, and on the no-text short-circuit it returns the input chain
with success; the caller's original chain is therefore intact whenever
the rewrite reports failure.  (Both functions are pure in the
embedding; Python-level allocation identity is not observable here.) -/
theorem rewriter_frame_condition :
    ∀ (oracle : Nat → String → CallOutcome) (mode : String)
      (chain c : List Seg),
      (polish_chain_segments oracle mode chain = .ok (false, c) →
        c = chain) ∧
      (chain.all (fun s => !s.isPlain) = true →
        polish_chain_segments oracle mode chain = .ok (true, chain)) := by
  intro oracle mode chain c
  constructor
  · intro h
    unfold polish_chain_segments at h
    cases hp : polishSegs oracle mode chain [] 0 with
    | error e => rw [hp] at h; cases h
    | ok o =>
      rw [hp] at h
      cases o with
      | none =>
        simp only [Except.ok.injEq, Prod.mk.injEq] at h
        exact h.2.symm
      | some pr =>
        obtain ⟨nc, cc⟩ := pr
        by_cases hany : chain.any Seg.isPlain <;> simp [hany] at h
  · intro hall
    exact polish_chain_segments_noPlain oracle mode chain hall

/-- C10 witness: a failing send-fixed-error run hands back the input
chain itself, and a text-free chain is returned unchanged. -/
theorem rewriter_frame_condition_witness :
    (polish_chain_segments (fun _ _ => .timeout) "send_error"
        [Seg.Plain "x", Seg.Image 1] = .ok (false, [Seg.Plain "x", Seg.Image 1]) →
      ([Seg.Plain "x", Seg.Image 1] : List Seg) =
        [Seg.Plain "x", Seg.Image 1]) ∧
    polish_chain_segments (fun _ _ => .timeout) "send_error"
        [Seg.Image 9] = .ok (true, [Seg.Image 9]) :=
  ⟨(rewriter_frame_condition (fun _ _ => .timeout) "send_error"
      [Seg.Plain "x", Seg.Image 1] [Seg.Plain "x", Seg.Image 1]).1,
   (rewriter_frame_condition (fun _ _ => .timeout) "send_error"
      [Seg.Image 9] [Seg.Image 9]).2 (by decide)⟩

theorem all_of_any_isPlain_false {chain : List Seg}
    (h : chain.any Seg.isPlain = false) :
    chain.all (fun s => !s.isPlain) = true := by
  rw [List.all_eq_true]
  intro x hx
  cases hxp : x.isPlain
  · simp
  · exact absurd (List.any_eq_true.mpr ⟨x, hx, hxp⟩) (by simp [h])

theorem specRewrite_noPlain (res : Nat → String → String) :
    ∀ (chain : List Seg), chain.all (fun s => !s.isPlain) = true →
      ∀ k, specRewrite res k [] chain = chain := by
  intro chain
  induction chain with
  | nil => intro _ k; simp [specRewrite]
  | cons s rest ih =>
    intro hall k
    cases s with
    | Plain t => simp at hall
    | Image p =>
      have hrest : rest.all (fun s => !s.isPlain) = true := by
        simp only [List.all_cons, Bool.and_eq_true] at hall
        exact hall.2
      simp [specRewrite, ih hrest k]

theorem specRewrite_filter (res : Nat → String → String) :
    ∀ (chain : List Seg) (buf : List String) (k : Nat),
      (specRewrite res k buf chain).filter (fun s => !s.isPlain) =
        chain.filter (fun s => !s.isPlain) := by
  intro chain
  induction chain with
  | nil =>
    intro buf k
    by_cases hb : buf = [] <;> simp [specRewrite, hb]
  | cons s rest ih =>
    intro buf k
    cases s with
    | Plain t => simp [specRewrite, ih (buf ++ [t]) k]
    | Image p =>
      by_cases hb : buf = [] <;> simp [specRewrite, hb, ih]

theorem polishSegs_allSuccess (oracle : Nat → String → CallOutcome)
    (mode : String) (res : Nat → String → String)
    (hres : ∀ i t, polish_text (oracle i t) = .ok (some (res i t))) :
    ∀ (chain : List Seg) (buf : List String) (k : Nat),
      (∀ r ∈ runTexts chain buf, strip r ≠ "") →
      polishSegs oracle mode chain buf k =
        .ok (some (specRewrite res k buf chain,
          k + (runTexts chain buf).length)) := by
  intro chain
  induction chain with
  | nil =>
    intro buf k hruns
    by_cases hb : buf = []
    · subst hb
      simp [polishSegs, flush_plain_buffer, runTexts, specRewrite]
    · have hr : strip (String.intercalate "\n" buf) ≠ "" :=
        hruns _ (by simp [runTexts, hb])
      simp [polishSegs, flush_plain_buffer, hb, hr, hres, runTexts,
        specRewrite]
  | cons s rest ih =>
    intro buf k hruns
    cases s with
    | Plain t =>
      have hruns' : ∀ r ∈ runTexts rest (buf ++ [t]), strip r ≠ "" := by
        intro r hr
        exact hruns r (by simpa [runTexts] using hr)
      simpa [polishSegs, runTexts, specRewrite] using
        ih (buf ++ [t]) k hruns'
    | Image p =>
      by_cases hb : buf = []
      · subst hb
        have hrest := ih [] k (fun r hr =>
          hruns r (by simpa [runTexts] using hr))
        simp [polishSegs, flush_plain_buffer, runTexts, specRewrite, hrest]
      · have hr : strip (String.intercalate "\n" buf) ≠ "" :=
          hruns _ (by simp [runTexts, hb])
        have hrest := ih [] (k + 1) (fun r hrm =>
          hruns r (by simp [runTexts, hb]; exact Or.inr hrm))
        simp [polishSegs, flush_plain_buffer, hb, hr, hres, hrest,
          runTexts, specRewrite, Nat.add_assoc, Nat.add_comm,
          Nat.add_left_comm]

/-- C1: with a successful rewrite of each buffered run (each maximal
contiguous `Plain` run has non-whitespace merged text, and every call
succeeds), the output chain is exactly the input with each maximal run
replaced by one `Plain` segment holding the response of an independent
call on that run's newline-joined, stripped text (the `k`-th run uses
the `k`-th call), and all non-text segments are preserved in their
original relative order. -/
theorem contiguous_runs_rewritten_independently :
    ∀ (oracle : Nat → String → CallOutcome) (mode : String)
      (res : Nat → String → String) (chain : List Seg),
      (∀ i t, polish_text (oracle i t) = .ok (some (res i t))) →
      (∀ r ∈ runTexts chain [], strip r ≠ "") →
      polish_chain_segments oracle mode chain =
        .ok (true, specRewrite res 0 [] chain) ∧
      (specRewrite res 0 [] chain).filter (fun s => !s.isPlain) =
        chain.filter (fun s => !s.isPlain) := by
  intro oracle mode res chain hres hruns
  have h := polishSegs_allSuccess oracle mode res hres chain [] 0 hruns
  constructor
  · simp only [polish_chain_segments, h]
    by_cases hany : chain.any Seg.isPlain
    · simp [hany]
    · have hall := all_of_any_isPlain_false (by simpa using hany :
        chain.any Seg.isPlain = false)
      simp [hany, specRewrite_noPlain res chain hall 0]
  · exact specRewrite_filter res chain [] 0

/-- C1 witness: `[Plain "hi", Image 7, Plain "there"]` with two
independent successful calls yields
`[Plain rewritten1, Image 7, Plain rewritten2]`. -/
theorem contiguous_runs_rewritten_independently_witness :
    polish_chain_segments
        (fun i _ => .response (some (some (if i = 0 then "A" else "B"))))
        "fallback_original"
        [Seg.Plain "hi", Seg.Image 7, Seg.Plain "there"] =
      .ok (true, [Seg.Plain "A", Seg.Image 7, Seg.Plain "B"]) := by
  have h := contiguous_runs_rewritten_independently
    (fun i _ => .response (some (some (if i = 0 then "A" else "B"))))
    "fallback_original" (fun i _ => if i = 0 then "A" else "B")
    [Seg.Plain "hi", Seg.Image 7, Seg.Plain "there"]
    (by intro i t; by_cases hi : i = 0 <;> simp [hi] <;> decide)
    (by decide)
  rw [h.1]
  decide

theorem polishSegs_sendError_abort (oracle : Nat → String → CallOutcome) :
    ∀ (chain : List Seg) (buf : List String) (k0 : Nat)
      (pre : List String) (failT : String) (post : List String),
      callTexts chain buf = pre ++ failT :: post →
      (∀ j (hj : j < pre.length),
        ∃ s, polish_text (oracle (k0 + j) (pre.get ⟨j, hj⟩)) =
          .ok (some s)) →
      polish_text (oracle (k0 + pre.length) failT) = .ok none →
      polishSegs oracle "send_error" chain buf k0 = .ok none := by
  intro chain
  induction chain with
  | nil =>
    intro buf k0 pre failT post hct hbefore hfail
    by_cases hb : buf = []
    · subst hb
      simp only [callTexts, if_pos rfl] at hct
      exact absurd (congrArg List.length hct) (by simp; omega)
    · by_cases hw : strip (String.intercalate "\n" buf) = ""
      · simp only [callTexts, hb, if_neg, hw, if_pos] at hct
        exact absurd (congrArg List.length hct) (by simp; omega)
      · have hct' : [strip (String.intercalate "\n" buf)] =
            pre ++ failT :: post := by
          simpa [callTexts, hb, hw] using hct
        cases pre with
        | nil =>
          simp only [List.nil_append, List.cons.injEq] at hct'
          obtain ⟨hf, -⟩ := hct'
          rw [List.length_nil, Nat.add_zero, ← hf] at hfail
          simp [polishSegs, flush_plain_buffer, hb, hw, hfail]
        | cons p0 pre' =>
          exact absurd (congrArg List.length hct') (by simp)
  | cons s rest ih =>
    intro buf k0 pre failT post hct hbefore hfail
    cases s with
    | Plain t =>
      exact ih (buf ++ [t]) k0 pre failT post
        (by simpa [callTexts] using hct) hbefore hfail
    | Image p =>
      by_cases hb : buf = []
      · subst hb
        have hct' : callTexts rest [] = pre ++ failT :: post := by
          simpa [callTexts] using hct
        simp [polishSegs, flush_plain_buffer,
          ih [] k0 pre failT post hct' hbefore hfail]
      · by_cases hw : strip (String.intercalate "\n" buf) = ""
        · have hct' : callTexts rest [] = pre ++ failT :: post := by
            simpa [callTexts, hb, hw] using hct
          simp [polishSegs, flush_whitespace oracle _ buf k0 hw,
            ih [] k0 pre failT post hct' hbefore hfail]
        · have hct' : strip (String.intercalate "\n" buf) ::
              callTexts rest [] = pre ++ failT :: post := by
            simpa [callTexts, hb, hw] using hct
          cases pre with
          | nil =>
            simp only [List.nil_append, List.cons.injEq] at hct'
            obtain ⟨hf, -⟩ := hct'
            rw [List.length_nil, Nat.add_zero, ← hf] at hfail
            simp [polishSegs, flush_plain_buffer, hb, hw, hfail]
          | cons p0 pre' =>
            simp only [List.cons_append, List.cons.injEq] at hct'
            obtain ⟨hp0, hrest⟩ := hct'
            obtain ⟨s0, hs0⟩ := hbefore 0 (by simp)
            rw [Nat.add_zero] at hs0
            have hs0' : polish_text
                (oracle k0 (strip (String.intercalate "\n" buf))) =
                  .ok (some s0) := by
              rw [hp0]
              simpa using hs0
            have hbefore' : ∀ j (hj : j < pre'.length),
                ∃ s, polish_text (oracle (k0 + 1 + j)
                  (pre'.get ⟨j, hj⟩)) = .ok (some s) := by
              intro j hj
              obtain ⟨s, hs⟩ := hbefore (j + 1) (by simpa using hj)
              refine ⟨s, ?_⟩
              rw [show k0 + 1 + j = k0 + (j + 1) from by omega]
              simpa using hs
            have hfail' : polish_text
                (oracle (k0 + 1 + pre'.length) failT) = .ok none := by
              rw [show k0 + 1 + pre'.length = k0 + (p0 :: pre').length
                from by simp; omega]
              exact hfail
            simp [polishSegs, flush_plain_buffer, hb, hw, hs0',
              ih [] (k0 + 1) pre' failT post hrest hbefore' hfail']

theorem replace_go_replaced (msg : String) :
    ∀ (l : List Seg), replace_plain_go msg l true =
      (l.filter (fun s => !s.isPlain), true) := by
  intro l
  induction l with
  | nil => simp [replace_plain_go]
  | cons s rest ih =>
    cases s with
    | Plain t => simpa [replace_plain_go] using ih
    | Image p => simp [replace_plain_go, ih]

theorem replace_go_noPlain (msg : String) :
    ∀ (l : List Seg), l.all (fun s => !s.isPlain) = true →
      replace_plain_go msg l false = (l, false) := by
  intro l
  induction l with
  | nil => intro _; simp [replace_plain_go]
  | cons s rest ih =>
    intro hall
    cases s with
    | Plain t => simp at hall
    | Image p =>
      have hrest : rest.all (fun s => !s.isPlain) = true := by
        simp only [List.all_cons, Bool.and_eq_true] at hall
        exact hall.2
      simp [replace_plain_go, ih hrest]

theorem replace_go_firstPlain (msg : String) :
    ∀ (pre : List Seg), pre.all (fun s => !s.isPlain) = true →
      ∀ (t : String) (post : List Seg),
        replace_plain_go msg (pre ++ .Plain t :: post) false =
          (pre ++ .Plain msg :: post.filter (fun s => !s.isPlain), true) := by
  intro pre
  induction pre with
  | nil =>
    intro _ t post
    simp [replace_plain_go, replace_go_replaced]
  | cons s pre' ih =>
    intro hall t post
    cases s with
    | Plain u => simp at hall
    | Image p =>
      have hpre : pre'.all (fun s => !s.isPlain) = true := by
        simp only [List.all_cons, Bool.and_eq_true] at hall
        exact hall.2
      simp [replace_plain_go, ih hpre t post]

/-- C2: when a rewrite call fails in send-fixed-error (`send_error`)
mode — the calls before it (on earlier runs) succeeding, so that the
failing call is reached with any amount of rewritten progress —
`_polish_chain_segments` returns `(False, chain)` with the original
chain (all progress discarded); and `_replace_plain_text` applied to
the original chain produces a chain with exactly one `Plain` segment,
holding the fixed failure message, at the position of the first
original `Plain` segment (prepended when no `Plain` existed), dropping
all other `Plain` segments and keeping every non-text segment in its
original order. -/
theorem send_error_abort_and_substitution :
    ∀ (oracle : Nat → String → CallOutcome) (chain : List Seg)
      (msg : String),
      (∀ (pre : List String) (failT : String) (post : List String),
        callTexts chain [] = pre ++ failT :: post →
        (∀ j (hj : j < pre.length),
          ∃ s, polish_text (oracle j (pre.get ⟨j, hj⟩)) = .ok (some s)) →
        polish_text (oracle pre.length failT) = .ok none →
        polish_chain_segments oracle "send_error" chain =
          .ok (false, chain)) ∧
      (∀ (pre : List Seg) (t : String) (post : List Seg),
        chain = pre ++ .Plain t :: post →
        pre.all (fun s => !s.isPlain) = true →
        replace_plain_text chain msg =
          pre ++ .Plain msg :: post.filter (fun s => !s.isPlain)) ∧
      (chain.all (fun s => !s.isPlain) = true →
        replace_plain_text chain msg = .Plain msg :: chain) := by
  intro oracle chain msg
  refine ⟨?_, ?_, ?_⟩
  · intro pre failT post hct hbefore hfail
    have habort := polishSegs_sendError_abort oracle chain [] 0
      pre failT post hct
      (by intro j hj
          obtain ⟨s, hs⟩ := hbefore j hj
          exact ⟨s, by simpa using hs⟩)
      (by simpa using hfail)
    simp [polish_chain_segments, habort]
  · intro pre t post hchain hpre
    subst hchain
    simp [replace_plain_text, replace_go_firstPlain msg pre hpre t post]
  · intro hall
    simp [replace_plain_text, replace_go_noPlain msg chain hall]

/-- C2 witness: the first run is rewritten successfully, the call for
the second run fails, and the whole rewrite still aborts with the
original chain (the rewritten first run is discarded); the
substitution helper replaces the first `Plain` with the fixed message,
dropping the other `Plain` and keeping the image. -/
theorem send_error_abort_and_substitution_witness :
    polish_chain_segments
        (fun i _ => if i = 0 then .response (some (some "A")) else .timeout)
        "send_error" [Seg.Plain "x", Seg.Image 1, Seg.Plain "y"] =
      .ok (false, [Seg.Plain "x", Seg.Image 1, Seg.Plain "y"]) ∧
    replace_plain_text [Seg.Plain "x", Seg.Image 1, Seg.Plain "y"] "err" =
      [Seg.Plain "err", Seg.Image 1] := by
  have h := send_error_abort_and_substitution
    (fun i _ => if i = 0 then .response (some (some "A")) else .timeout)
    [Seg.Plain "x", Seg.Image 1, Seg.Plain "y"] "err"
  refine ⟨h.1 ["x"] "y" [] (by decide) ?_ (by decide), ?_⟩
  · intro j hj
    have hj0 : j = 0 := Nat.lt_one_iff.mp hj
    subst hj0
    exact ⟨"A", by decide⟩
  · have h2 := h.2.1 [] "x" [Seg.Image 1, Seg.Plain "y"] rfl (by decide)
    simpa using h2

/-- C6: the reentrancy flag is set right before invoking the segment
rewriter and is restored on every exit path of that invocation
(success, failure, or propagated cancellation), so the hook always
exits with the guard it entered with; and when the pre-send hook runs
with the flag already set it returns immediately: the state, marker
store, and result chain are unchanged and the rewriter (hence the
provider) is never invoked, whatever the oracle or provider would
have done. -/
theorem reentrancy_guard_set_and_cleared :
    ∀ (oracle : Nat → String → CallOutcome) (mode msg : String)
      (now ttl : ℚ) (st : PluginState) (key : String)
      (rc : Option (List Seg)) (prov : Bool),
      (st.guard = true →
        force_polish_before_send oracle mode msg now ttl st key rc prov =
          ⟨st, rc, false, false, false⟩) ∧
      ((force_polish_before_send oracle mode msg now ttl st key rc
          prov).state.guard = st.guard) ∧
      ((force_polish_before_send oracle mode msg now ttl st key rc
          prov).rewriterCalled = true →
        (force_polish_before_send oracle mode msg now ttl st key rc
          prov).guardDuringCall = true) := by
  intro oracle mode msg now ttl st key rc prov
  refine ⟨?_, ?_, ?_⟩
  · intro h
    simp [force_polish_before_send, h]
  · cases hg : st.guard with
    | true => simp [force_polish_before_send, hg]
    | false =>
      simp only [force_polish_before_send, hg]
      repeat' split
      all_goals simp_all
  · cases hg : st.guard with
    | true => simp [force_polish_before_send, hg]
    | false =>
      simp only [force_polish_before_send, hg]
      repeat' split
      all_goals simp_all

/-- C6 witness: with the flag set the hook is an immediate no-op, and
with the flag clear a full run still exits with the flag clear. -/
theorem reentrancy_guard_set_and_cleared_witness :
    force_polish_before_send (fun _ _ => .timeout) "fallback_original" "m"
        (5 : ℚ) (300 : ℚ) ⟨true, [("k", (1 : ℚ))], false⟩ "k"
        (some [Seg.Plain "x"]) true =
      ⟨⟨true, [("k", (1 : ℚ))], false⟩, some [Seg.Plain "x"],
        false, false, false⟩ ∧
    (force_polish_before_send (fun _ _ => .timeout) "fallback_original" "m"
        (5 : ℚ) (300 : ℚ) ⟨false, [("k", (1 : ℚ))], false⟩ "k"
        (some [Seg.Plain "x"]) true).state.guard = false :=
  ⟨(reentrancy_guard_set_and_cleared (fun _ _ => .timeout)
      "fallback_original" "m" 5 300 ⟨true, [("k", 1)], false⟩ "k"
      (some [Seg.Plain "x"]) true).1 rfl,
   (reentrancy_guard_set_and_cleared (fun _ _ => .timeout)
      "fallback_original" "m" 5 300 ⟨false, [("k", 1)], false⟩ "k"
      (some [Seg.Plain "x"]) true).2.1⟩

end ChatPolisher
